import Mathlib

/-!
Verification development for the `TerrainMapAtlas` tile-atlas engine.

The definitions below are shallow embeddings of the atlas compositor's
per-frame `update` logic, its `_ensureZoomState` lifecycle helper, the
asynchronous tile-fetch completion handler, the fetch-issuance loop,
the trapezoid quad-tree refinement loop, the camera-debounce gate and
the distance-to-zoom mapping.  Machine numbers are modelled as `Nat`,
`Int`, `Rat` or `Real` as appropriate; JavaScript `null`/`NaN` holes
are modelled with `Option`.
-/

set_option autoImplicit false

namespace MapAtlas

/-! ### Atlas grid sizing (update, bands path lines 1750-1761 and trapezoid path lines 873-883) -/

/-- Modelled from the spec: `nextPow2` lives in `math.js`, which is not under
`src/`; the spec describes it as the smallest power of two containing the
bounding extent.  The doubling loop is given explicit fuel `n`, which is
always enough since `n ≤ 2 ^ n`. -/
def nextPow2Aux (n : ℕ) : ℕ → ℕ → ℕ
  | 0, p => p
  | fuel + 1, p => if p < n then nextPow2Aux n fuel (2 * p) else p

/-- Modelled from the spec: smallest power of two that is at least `n`. -/
def nextPow2 (n : ℕ) : ℕ := nextPow2Aux n n 1

/-- Uncapped grid size for a candidate bounding extent of `w × h` tiles:
`wantsMipmaps ? nextPow2(Math.max(w, h)) : Math.max(w, h)`. -/
def baseGridSize (wantsMipmaps : Bool) (w h : ℕ) : ℕ :=
  if wantsMipmaps then nextPow2 (max w h) else max w h

/-- Grid size chosen by the viewport/bands path (lines 1750-1753):
the uncapped size, overwritten by `maxGridSize` when it exceeds it. -/
def gridSizeBands (wantsMipmaps : Bool) (w h maxGridSize : ℕ) : ℕ :=
  if baseGridSize wantsMipmaps w h > maxGridSize then maxGridSize
  else baseGridSize wantsMipmaps w h

/-- Grid size chosen by the trapezoid path (line 875).  Note: this path
computes no GPU cap at all. -/
def gridSizeTrapezoid (wantsMipmaps : Bool) (w h : ℕ) : ℕ :=
  baseGridSize wantsMipmaps w h

/-- Largest power of two not exceeding `raw`, by the doubling loop of
`maxGridForCell` (lines 1323-1330); fuel as in `nextPow2Aux`. -/
def floorPow2Aux (raw : ℕ) : ℕ → ℕ → ℕ
  | 0, p => p
  | fuel + 1, p => if 2 * p ≤ raw then floorPow2Aux raw fuel (2 * p) else p

/-- `maxGridForCell` (lines 1323-1330): how many atlas cells of `cell`
pixels fit into the GPU maximum render-target size, rounded down to a
power of two when mipmaps are requested. -/
def maxGridForCell (wantsMipmaps : Bool) (maxRTSize cell : ℕ) : ℕ :=
  let raw := max 1 (maxRTSize / max 1 cell)
  if wantsMipmaps then floorPow2Aux raw raw 1 else raw

/-- Bounding-extent width of a nonempty candidate list (fold over tile
coordinates, lines 1739-1751): `maxTX - minTX + 1`. -/
def extentW (c : ℕ × ℕ) (cs : List (ℕ × ℕ)) : ℕ :=
  (cs.foldl (fun m p => max m p.1) c.1) + 1 - (cs.foldl (fun m p => min m p.1) c.1)

/-! ### Pin/unpin bookkeeping (update lines 1779-1785 and 891-897, disposal sites, `clear`) -/

/-- One lifecycle event applied to a zoom-level state's pin bookkeeping:
a frame reconciliation against a fresh desired key set, or disposal
(zoom dropped from the active range, empty candidates, or `clear`). -/
inductive PinOp where
  | updateKeys : Finset ℕ → PinOp
  | dispose : PinOp

/-- `st.activeKeys` after an operation: `update` assigns the desired set
(line 1785), disposal deletes the state. -/
def stepActive (_s : Finset ℕ) : PinOp → Finset ℕ
  | .updateKeys d => d
  | .dispose => ∅

/-- Keys pinned by an operation: `for key of desiredKeys: if (!activeKeys.has(key)) pin(key)`. -/
def pinsOf (s : Finset ℕ) : PinOp → Finset ℕ
  | .updateKeys d => d \ s
  | .dispose => ∅

/-- Keys unpinned by an operation: `for key of activeKeys: if (!desiredKeys.has(key)) unpin(key)`;
disposal unpins every active key (lines 1566-1583, 290-304). -/
def unpinsOf (s : Finset ℕ) : PinOp → Finset ℕ
  | .updateKeys d => s \ d
  | .dispose => s

/-- Active key set after running a trace of operations from a fresh state. -/
def runActive (ops : List PinOp) : Finset ℕ :=
  ops.foldl stepActive ∅

/-- Net pin-count contribution of one operation for key `k`. -/
def netPinOp (s : Finset ℕ) (op : PinOp) (k : ℕ) : ℤ :=
  (if k ∈ pinsOf s op then 1 else 0) - (if k ∈ unpinsOf s op then 1 else 0)

/-- Net number of pins minus unpins issued for key `k` along a trace,
starting from active set `s`. -/
def netPinsFrom (s : Finset ℕ) : List PinOp → ℕ → ℤ
  | [], _ => 0
  | op :: ops, k => netPinOp s op k + netPinsFrom (stepActive s op) ops k

/-- Net pins minus unpins for key `k` over a whole trace from a fresh state. -/
def netPins (ops : List PinOp) (k : ℕ) : ℤ :=
  netPinsFrom ∅ ops k

/-! ### Zoom-level state and `_ensureZoomState` (lines 2029-2120) -/

structure Grid where
  originX : ℤ
  originY : ℤ
  gridSize : ℤ
deriving DecidableEq

/-- One zoom-level state.  `rtId` names the GPU render target owned by the
state; `textures` is the resident-texture map, `loads` the set of keys
with an in-flight fetch, `activeKeys` the set of currently pinned keys,
and `cells` the per-cell draw-primitive bindings (cell index to the
texture bound on its material, `none` when cleared to transparent). -/
structure ZoomSt where
  grid : Grid
  cellSize : ℕ
  rtId : ℕ
  textures : ℕ → Option ℕ
  loads : Finset ℕ
  activeKeys : Finset ℕ
  cells : ℤ → Option ℕ
  dirty : Bool

/-- Cell-size normalisation at the top of `_ensureZoomState` (lines 2030-2031):
`Number.isFinite(cellSizePx) ? Math.max(1, cellSizePx | 0) : (tileSize | 0)`. -/
def normCellSize (cellSizePx : Option ℤ) (tileSize : ℕ) : ℕ :=
  match cellSizePx with
  | some v => max 1 v.toNat
  | none => tileSize

/-- `_ensureZoomState` (lines 2029-2120), returning the state paired with a
flag recording whether a new render target was allocated.  When the grid
and the (nonzero) cell size are unchanged the existing state is returned
untouched; otherwise the previous render target is disposed, a fresh one
(`freshRt`) is allocated, the per-cell draw primitives start cleared, the
state is marked dirty, and the resident textures, in-flight loads and
active key set are carried forward. -/
def ensureZoomState (stOpt : Option ZoomSt) (grid : Grid) (cellSizePx : Option ℤ)
    (tileSize : ℕ) (freshRt : ℕ) : ZoomSt × Bool :=
  match stOpt with
  | some st =>
    if st.grid = grid ∧ st.cellSize ≠ 0 ∧ st.cellSize = normCellSize cellSizePx tileSize then
      (st, false)
    else
      ({ grid := grid, cellSize := normCellSize cellSizePx tileSize, rtId := freshRt,
         textures := st.textures, loads := st.loads, activeKeys := st.activeKeys,
         cells := fun _ => none, dirty := true }, true)
  | none =>
    ({ grid := grid, cellSize := normCellSize cellSizePx tileSize, rtId := freshRt,
       textures := fun _ => none, loads := ∅, activeKeys := ∅,
       cells := fun _ => none, dirty := true }, true)

/-! ### The compositor state and the tile-fetch completion handler
(update lines 1837-1867 bands path, 954-984 trapezoid path) -/

/-- The compositor's shared state touched by completion handlers:
the per-zoom state table and the pending cell-size hints. -/
structure Atlas where
  byZoom : ℤ → Option ZoomSt
  pending : ℤ → Option ℕ

/-- Replace the state stored for zoom `z`. -/
def setZoom (a : Atlas) (z : ℤ) (st : ZoomSt) : Atlas :=
  { a with byZoom := fun w => if w = z then some st else a.byZoom w }

/-- The `finally` clause of a fetch (line 1865):
`atlas.byZoom.get(z)?.loads?.delete?.(c.key)`. -/
def removeLoad (a : Atlas) (z : ℤ) (key : ℕ) : Atlas :=
  match a.byZoom z with
  | none => a
  | some st => setZoom a z { st with loads := st.loads.erase key }

/-- `atlas.byZoom.get(z)?.cellSize || (tileConfig.tileSize ?? 256)`
(line 1842): the falsy-or also replaces a zero cell size. -/
def currentCellOf (a : Atlas) (z : ℤ) (defaultCell : ℕ) : ℕ :=
  match a.byZoom z with
  | some st => if st.cellSize = 0 then defaultCell else st.cellSize
  | none => defaultCell

/-- The pending cell-size update at the top of the fetch `then` body
(lines 1840-1844), which runs BEFORE the staleness re-check:
`if (!hasCellSizeOverride(z) && actual && pending.get(z) !== actual)`
followed by `if (actual !== currentCell) pending.set(z, actual)`. -/
def pendingStep (a : Atlas) (z : ℤ) (actual : Option ℕ) (hasOverride : Bool)
    (defaultCell : ℕ) : Atlas :=
  match actual with
  | none => a
  | some v =>
    if hasOverride = false ∧ a.pending z ≠ some v then
      if v ≠ currentCellOf a z defaultCell then
        { a with pending := fun w => if w = z then some v else a.pending w }
      else a
    else a

/-- The non-stale tail of the fetch `then` body (lines 1848-1861):
record the texture in the state's texture map and, when the tile's cell
lies inside the grid, bind it on the cell's material and mark the state
dirty. -/
def setZoomTexBound (a : Atlas) (z : ℤ) (key : ℕ) (tileX tileY : ℤ) (tex : ℕ)
    (st : ZoomSt) : Atlas :=
  let st1 := { st with textures := fun k => if k = key then some tex else st.textures k }
  let ix := tileX - st.grid.originX
  let iy := tileY - st.grid.originY
  if ix < 0 ∨ iy < 0 ∨ st.grid.gridSize ≤ ix ∨ st.grid.gridSize ≤ iy then setZoom a z st1
  else
    setZoom a z
      { st1 with
        cells := fun i => if i = iy * st.grid.gridSize + ix then some tex else st1.cells i,
        dirty := true }

/-- The `then` body of a fetch (lines 1839-1862).  `actual` is the cell
size measured from the delivered texture (`_getCellSizeFromTexture`),
`hasOverride` whether a configured cell-size override exists for `z`,
and `defaultCell` the fallback `tileConfig.tileSize ?? 256`.  After the
pending step, the handler re-reads the CURRENT state for zoom `z` and
returns unless the key is still in its active set; only then are the
texture map, the cell's material binding and the dirty flag touched. -/
def tileThenBody (a : Atlas) (z : ℤ) (key : ℕ) (tileX tileY : ℤ) (tex : ℕ)
    (actual : Option ℕ) (hasOverride : Bool) (defaultCell : ℕ) : Atlas :=
  match (pendingStep a z actual hasOverride defaultCell).byZoom z with
  | none => pendingStep a z actual hasOverride defaultCell
  | some st =>
    if key ∉ st.activeKeys then pendingStep a z actual hasOverride defaultCell
    else
      setZoomTexBound (pendingStep a z actual hasOverride defaultCell) z key tileX tileY tex st

/-- A settled fetch: on success the `then` body runs, a failure is
swallowed by the empty `catch`, and in both cases the `finally` clause
removes the key from the in-flight map. -/
def tileSettled (success : Bool) (a : Atlas) (z : ℤ) (key : ℕ) (tileX tileY : ℤ) (tex : ℕ)
    (actual : Option ℕ) (hasOverride : Bool) (defaultCell : ℕ) : Atlas :=
  removeLoad
    (if success then tileThenBody a z key tileX tileY tex actual hasOverride defaultCell else a)
    z key

/-- A stale completion: its zoom state is gone, or its key has dropped
out of the (possibly superseded) state's active set. -/
def staleFor (a : Atlas) (z : ℤ) (key : ℕ) : Prop :=
  match a.byZoom z with
  | none => True
  | some st => key ∉ st.activeKeys

/-- A concrete grid used to evaluate the lifecycle helpers. -/
def sampleGrid : Grid := ⟨10, 20, 4⟩

/-- A concrete zoom-level state used to evaluate the lifecycle helpers. -/
def sampleZoomSt : ZoomSt :=
  { grid := sampleGrid, cellSize := 256, rtId := 1,
    textures := fun k => if k = 5 then some 42 else none,
    loads := {7}, activeKeys := {5, 7},
    cells := fun _ => none, dirty := false }

/-- The compositor state with no zoom-level states and no pending hints. -/
def atlasEmpty : Atlas := ⟨fun _ => none, fun _ => none⟩

/-- A compositor state holding `sampleZoomSt` at zoom 13. -/
def sampleAtlas : Atlas :=
  ⟨fun w => if w = 13 then some sampleZoomSt else none, fun _ => none⟩

/-! ### Per-frame fetch issuance (update lines 1814-1868 bands path, 926-985 trapezoid path) -/

/-- A per-frame candidate cell: grid cell index, tile key and coordinates. -/
structure CellInfo where
  idx : ℤ
  key : ℕ
  tileX : ℤ
  tileY : ℤ
deriving DecidableEq

/-- Result of one zoom's issuance loop: the in-flight map afterwards,
the value of the `issued` counter, and the issued keys in order. -/
structure IssueOut where
  loads : Finset ℕ
  issuedCount : ℕ
  issuedKeys : List ℕ
deriving DecidableEq

/-- The cell loop of one zoom (lines 1816-1868): cells with a missing
material are skipped; cells whose texture is already resident are bound
without counting; keys already in flight are skipped; once `issued`
reaches `maxNewLoadsPerTick` no further fetch starts; an issued fetch is
recorded in the in-flight map immediately. -/
def issueLoopGo (textures : ℕ → Option ℕ) (matOk : ℤ → Bool) (quota : ℕ) :
    List CellInfo → Finset ℕ → ℕ → List ℕ → IssueOut
  | [], loads, issued, acc => ⟨loads, issued, acc.reverse⟩
  | c :: cs, loads, issued, acc =>
    if matOk c.idx = false then issueLoopGo textures matOk quota cs loads issued acc
    else
      match textures c.key with
      | some _ => issueLoopGo textures matOk quota cs loads issued acc
      | none =>
        if c.key ∈ loads then issueLoopGo textures matOk quota cs loads issued acc
        else if quota ≤ issued then issueLoopGo textures matOk quota cs loads issued acc
        else issueLoopGo textures matOk quota cs (insert c.key loads) (issued + 1) (c.key :: acc)

/-- One zoom's issuance pass, starting with `issued = 0` (line 1815: the
counter is declared inside the per-zoom loop). -/
def issueFetches (textures : ℕ → Option ℕ) (matOk : ℤ → Bool) (quota : ℕ)
    (cells : List CellInfo) (loads : Finset ℕ) : IssueOut :=
  issueLoopGo textures matOk quota cells loads 0 []

/-- Total fetches issued in one `update` call: the per-zoom loop runs the
issuance pass once per active zoom, resetting the counter each time. -/
def frameIssuedTotal (textures : ℕ → Option ℕ) (matOk : ℤ → Bool) (quota : ℕ)
    (zoomCells : List (List CellInfo × Finset ℕ)) : ℕ :=
  (zoomCells.map fun zc => (issueFetches textures matOk quota zc.1 zc.2).issuedCount).sum

/-! ### Trapezoid quad-tree refinement (update lines 736-822) -/

/-- A stack entry of the refinement loop: tile coordinates and zoom. -/
structure TileEnt where
  tileX : ℤ
  tileY : ℤ
  z : ℤ
deriving DecidableEq

/-- The four children pushed on refinement (lines 787-792), listed
top-of-stack first (`Array.prototype.pop` takes the last push). -/
def childEnts (t : TileEnt) : List TileEnt :=
  [⟨2 * t.tileX + 1, 2 * t.tileY + 1, t.z + 1⟩,
   ⟨2 * t.tileX, 2 * t.tileY + 1, t.z + 1⟩,
   ⟨2 * t.tileX + 1, 2 * t.tileY, t.z + 1⟩,
   ⟨2 * t.tileX, 2 * t.tileY, t.z + 1⟩]

/-- Result of the refinement loop: accepted leaves in acceptance order,
the stack left when the loop stopped (top first), the leaf count and
the number of work units consumed. -/
structure RefineOut where
  accepted : List TileEnt
  remaining : List TileEnt
  leaves : ℕ
  work : ℕ

/-- The refinement loop (lines 766-805).  `visible` is the frustum test,
`inRange` the `rectDist <= maxRangeMeters` test and `desiredZ` the
screen-space desired zoom; all three abstract the camera geometry.  The
loop runs while the stack is nonempty and fewer than `maxWork` (the
fuel) work units are consumed. -/
def refineLoop (visible inRange : TileEnt → Bool) (desiredZ : TileEnt → ℤ)
    (minZoom topZoom : ℤ) (maxLeaf : ℕ) :
    ℕ → List TileEnt → List TileEnt → ℕ → ℕ → RefineOut
  | _, [], acc, leaves, work => ⟨acc, [], leaves, work⟩
  | 0, stack, acc, leaves, work => ⟨acc, stack, leaves, work⟩
  | fuel + 1, t :: rest, acc, leaves, work =>
    if visible t = false ∧ minZoom < t.z then
      refineLoop visible inRange desiredZ minZoom topZoom maxLeaf fuel rest acc leaves (work + 1)
    else if inRange t = false then
      refineLoop visible inRange desiredZ minZoom topZoom maxLeaf fuel rest acc leaves (work + 1)
    else
      if t.z < topZoom ∧ t.z < (if visible t then desiredZ t else t.z) ∧ leaves < maxLeaf then
        refineLoop visible inRange desiredZ minZoom topZoom maxLeaf fuel
          (childEnts t ++ rest) acc leaves (work + 1)
      else
        refineLoop visible inRange desiredZ minZoom topZoom maxLeaf fuel rest
          (acc ++ [t]) (leaves + 1) (work + 1)

/-- The selection pass: run the loop with `maxWork` budget, then append
every entry still on the stack, unrefined, at its current zoom (the
safety flush of lines 807-822, which iterates the stack bottom-up). -/
def selectTrapezoidTiles (visible inRange : TileEnt → Bool) (desiredZ : TileEnt → ℤ)
    (minZoom topZoom : ℤ) (maxLeaf maxWork : ℕ) (stack : List TileEnt) : List TileEnt × ℕ :=
  let r := refineLoop visible inRange desiredZ minZoom topZoom maxLeaf maxWork stack [] 0 0
  (r.accepted ++ r.remaining.reverse, r.work)

/-! ### Distance-to-zoom mapping (update lines 693-713) -/

/-- Earth mercator circumference `2 * PI * 6378137` (line 442). -/
noncomputable def worldCircumference : ℝ := 2 * Real.pi * 6378137

/-- `metersPerPixel` for a perspective camera at viewing distance `dist`
(lines 696, 705, 709): `2 * max(1, dist) * tan(fov / 2) / viewportH`,
scaled by the configured LOD error scale. -/
noncomputable def metersPerPixelAt (tanHalfFov viewportH errScale dist : ℝ) : ℝ :=
  2 * max 1 dist * tanHalfFov / viewportH * errScale

/-- `desiredZoomForDistance` (lines 695-713):
`clamp(ceil(log2(WORLD / (256 * metersPerPixel))), minZoom, topZoom)`
with `clamp(v, a, b) = Math.max(a, Math.min(b, v))`. -/
noncomputable def desiredZoomForDistance (tanHalfFov viewportH errScale : ℝ)
    (minZoom topZoom : ℤ) (dist : ℝ) : ℤ :=
  max minZoom (min topZoom
    ⌈Real.logb 2 (worldCircumference / (256 * metersPerPixelAt tanHalfFov viewportH errScale dist))⌉)

/-! ### Camera debounce gate (update lines 390-427) -/

/-- Camera pose snapshot stored in `atlas.lastView` (lines 401-409). -/
structure CamView where
  x : ℝ
  y : ℝ
  z : ℝ
  qx : ℝ
  qy : ℝ
  qz : ℝ
  qw : ℝ

/-- Planar translation in meters since the last stored view (lines
413-416): `Math.hypot(toMeters(dx), toMeters(dz))`; `mpu` is the
projection's meters-per-unit factor. -/
noncomputable def viewPlanarMeters (mpu : ℝ) (lv cv : CamView) : ℝ :=
  Real.sqrt ((mpu * (cv.x - lv.x)) ^ 2 + (mpu * (cv.z - lv.z)) ^ 2)

/-- Height change in meters since the last stored view (lines 415, 417). -/
noncomputable def viewHeightMeters (mpu : ℝ) (lv cv : CamView) : ℝ :=
  |mpu * (cv.y - lv.y)|

/-- Rotation angle in degrees between the two quaternions (lines
418-420): `2 * acos(clamp(abs(dot), -1, 1)) * 180 / PI`. -/
noncomputable def viewAngleDeg (lv cv : CamView) : ℝ :=
  2 * Real.arccos (max (-1) (min 1
    |cv.qx * lv.qx + cv.qy * lv.qy + cv.qz * lv.qz + cv.qw * lv.qw|)) * (180 / Real.pi)

/-- The movement test of line 421: any threshold strictly exceeded. -/
def viewMoved (mpu moveM heightM angleDeg : ℝ) (lv cv : CamView) : Prop :=
  moveM < viewPlanarMeters mpu lv cv ∨ heightM < viewHeightMeters mpu lv cv ∨
    angleDeg < viewAngleDeg lv cv

open Classical in
/-- `atlas.lastMoveAt` after the gate ran (lines 412-424): set to `now`
exactly when a previous view exists and the movement test fired. -/
noncomputable def debounceLastMoveAt (mpu moveM heightM angleDeg : ℝ)
    (lastView : Option CamView) (cv : CamView) (lastMoveAt : Option ℝ) (now : ℝ) : Option ℝ :=
  match lastView with
  | none => lastMoveAt
  | some lv => if viewMoved mpu moveM heightM angleDeg lv cv then some now else lastMoveAt

/-- The early return of line 426: the frame's LOD recomputation is
suppressed when a movement timestamp exists and is fresher than the
debounce interval. -/
def debounceSuppresses (lastMoveAt : Option ℝ) (now debounceMs : ℝ) : Prop :=
  match lastMoveAt with
  | none => False
  | some t => now - t < debounceMs

/-! ### Per-frame input validation (update lines 315-432, trapezoid
viewport bounds lines 599-659) -/

/-- The gate conditions evaluated, in program order, before the camera
mercator check: shader patching enabled (line 327), the height cutoff
(line 375), the debounce gate (line 426) and the update-interval
throttle (line 429). -/
structure GuardInput where
  enabled : Bool
  heightGateExceeded : Bool
  debounceSuppressed : Bool
  throttled : Bool

/-- Which return the guarded prefix of `update` took. -/
inductive FrameOutcome where
  | clearedDisabled
  | clearedHeight
  | debounced
  | throttleSkipped
  | invalidCamera
  | proceeds
deriving DecidableEq

/-- The test of line 432:
`!camMerc || !Number.isFinite(camMerc.x) || !Number.isFinite(camMerc.y)`.
`none` models a missing projection reference (`proj?.threeToMercator?.()
?? null`), an inner `none` a non-finite coordinate. -/
def camMercFinite (camMerc : Option (Option ℚ × Option ℚ)) : Bool :=
  match camMerc with
  | none => false
  | some (mx, my) => mx.isSome && my.isSome

/-- Effect of the guarded prefix on the zoom-state table (zoom paired
with its pinned active keys), the unpin events and the fetches issued
before the LOD phase. -/
structure GuardResult where
  byZoom : List (ℤ × Finset ℕ)
  unpinned : Finset ℕ
  fetchCount : ℕ
  outcome : FrameOutcome

/-- The guarded prefix of `update` (lines 315-432).  The two `clear`
paths unpin every active key and empty the table; the debounce, throttle
and invalid-camera returns leave the table, the pins and the fetch count
untouched; otherwise the LOD phase runs (`proceeds`). -/
def updateGuard (byZoom : List (ℤ × Finset ℕ)) (g : GuardInput)
    (camMerc : Option (Option ℚ × Option ℚ)) : GuardResult :=
  if g.enabled = false then
    ⟨[], byZoom.foldr (fun p acc => p.2 ∪ acc) ∅, 0, .clearedDisabled⟩
  else if g.heightGateExceeded then
    ⟨[], byZoom.foldr (fun p acc => p.2 ∪ acc) ∅, 0, .clearedHeight⟩
  else if g.debounceSuppressed then ⟨byZoom, ∅, 0, .debounced⟩
  else if g.throttled then ⟨byZoom, ∅, 0, .throttleSkipped⟩
  else if camMercFinite camMerc = false then ⟨byZoom, ∅, 0, .invalidCamera⟩
  else ⟨byZoom, ∅, 0, .proceeds⟩

/-- Mercator bounds of the trapezoid strategy's viewport footprint
(lines 599-659) over exact rationals, where the non-finite checks are
vacuous.  With fewer than two ground hits the code does NOT bail out: it
falls back to a conservative `maxRange`-sized square around the camera.
With two or more hits the bounding box of the hits is clamped to the
camera-centred square, and an inverted clamp falls back to that square. -/
structure MercBounds where
  minX : ℚ
  minY : ℚ
  maxX : ℚ
  maxY : ℚ
deriving DecidableEq

/-- The `viewportMercBounds` closure of the trapezoid path (lines
599-659).  `projPresent` models the `proj?.centerMercator` check. -/
def trapezoidViewportMercBounds (projPresent : Bool) (mercPts : List (ℚ × ℚ))
    (camX camY maxRange : ℚ) : Option MercBounds :=
  if projPresent = false then none
  else if mercPts.length < 2 then
    some ⟨camX - maxRange, camY - maxRange, camX + maxRange, camY + maxRange⟩
  else
    match mercPts with
    | [] => none
    | p :: ps =>
      let minX := ps.foldl (fun m q => min m q.1) p.1
      let minY := ps.foldl (fun m q => min m q.2) p.2
      let maxX := ps.foldl (fun m q => max m q.1) p.1
      let maxY := ps.foldl (fun m q => max m q.2) p.2
      let minX1 := max minX (camX - maxRange)
      let maxX1 := min maxX (camX + maxRange)
      let minY1 := max minY (camY - maxRange)
      let maxY1 := min maxY (camY + maxRange)
      if maxX1 < minX1 ∨ maxY1 < minY1 then
        some ⟨camX - maxRange, camY - maxRange, camX + maxRange, camY + maxRange⟩
      else some ⟨minX1, minY1, maxX1, maxY1⟩

end MapAtlas

namespace MapAtlas

/-! ### Supporting lemmas for grid sizing -/

theorem nextPow2Aux_ge {n : ℕ} : ∀ fuel p, n ≤ 2 ^ fuel * p → n ≤ nextPow2Aux n fuel p := by
  intro fuel
  induction fuel with
  | zero => intro p h; simpa [nextPow2Aux] using h
  | succ f ih =>
    intro p h
    rw [nextPow2Aux]
    by_cases hp : p < n
    · simp only [hp, if_true]
      exact ih (2 * p) (by rw [show (2 : ℕ) ^ f * (2 * p) = 2 ^ (f + 1) * p by ring]; exact h)
    · simp only [hp, if_false]; omega

theorem nextPow2Aux_pow2 {n : ℕ} : ∀ fuel p, (∃ j, p = 2 ^ j) →
    ∃ k, nextPow2Aux n fuel p = 2 ^ k := by
  intro fuel
  induction fuel with
  | zero => intro p hp; simpa [nextPow2Aux] using hp
  | succ f ih =>
    intro p hp
    rw [nextPow2Aux]
    by_cases hlt : p < n
    · simp only [hlt, if_true]
      obtain ⟨j, rfl⟩ := hp
      exact ih (2 * 2 ^ j) ⟨j + 1, by ring⟩
    · simp only [hlt, if_false]; exact hp

theorem nextPow2Aux_min {n : ℕ} : ∀ fuel p j m, p = 2 ^ j → p ≤ 2 ^ m → n ≤ 2 ^ m →
    nextPow2Aux n fuel p ≤ 2 ^ m := by
  intro fuel
  induction fuel with
  | zero => intro p _ _ hp hpm _; simpa [nextPow2Aux] using hpm
  | succ f ih =>
    intro p j m hpj hpm hnm
    rw [nextPow2Aux]
    by_cases hlt : p < n
    · simp only [hlt, if_true]
      have hjm : j < m := by
        by_contra hge
        have : 2 ^ m ≤ 2 ^ j := Nat.pow_le_pow_right (by norm_num) (by omega)
        omega
      refine ih (2 * p) (j + 1) m (by rw [hpj]; ring) ?_ hnm
      calc 2 * p = 2 ^ (j + 1) := by rw [hpj]; ring
        _ ≤ 2 ^ m := Nat.pow_le_pow_right (by norm_num) (by omega)
    · simp only [hlt, if_false]; exact hpm

theorem le_nextPow2 (n : ℕ) : n ≤ nextPow2 n :=
  nextPow2Aux_ge n 1 (by have := Nat.lt_two_pow n; omega)

theorem nextPow2_pow2 (n : ℕ) : ∃ k, nextPow2 n = 2 ^ k :=
  nextPow2Aux_pow2 n 1 ⟨0, rfl⟩

theorem nextPow2_min (n m : ℕ) (h : n ≤ 2 ^ m) : nextPow2 n ≤ 2 ^ m :=
  nextPow2Aux_min n 1 0 m rfl (Nat.one_le_two_pow) h

/-- C1 counterexample.  The claim states that the grid size chosen for a
zoom is always the GPU-capped bounding size.  The trapezoid path (line
875) computes no cap: with candidates spanning 100 tiles, mipmaps on and
the default GPU limits (4096 px render target, 256 px cells, so at most
16 cells per side), the trapezoid path chooses 128 while the capped value
the claim prescribes — and the viewport/bands path (line 1753) computes —
is 16. -/
theorem gridSize_cap_counterexample :
    gridSizeTrapezoid true 100 1 = 128 ∧
    maxGridForCell true 4096 256 = 16 ∧
    gridSizeBands true 100 1 (maxGridForCell true 4096 256) = 16 ∧
    gridSizeTrapezoid true 100 1 ≠ min (baseGridSize true 100 1) (maxGridForCell true 4096 256) := by
  decide

/-- C1 (amended): in the viewport/bands path the grid size for a zoom is
exactly the bounding size capped by the GPU grid limit, where the
bounding size is the smallest power of two containing the candidates'
bounding extent when mipmaps are on (a power of two, at least the
extent, minimal among powers of two) and the exact bounding extent when
mipmaps are off; the trapezoid path chooses the same bounding size but
applies no GPU cap. -/
theorem gridSize_choice (wantsMipmaps : Bool) (w h cap : ℕ) :
    gridSizeBands wantsMipmaps w h cap = min (baseGridSize wantsMipmaps w h) cap ∧
    max w h ≤ baseGridSize wantsMipmaps w h ∧
    (∃ k, baseGridSize true w h = 2 ^ k) ∧
    (∀ m, max w h ≤ 2 ^ m → baseGridSize true w h ≤ 2 ^ m) ∧
    baseGridSize false w h = max w h ∧
    gridSizeTrapezoid wantsMipmaps w h = baseGridSize wantsMipmaps w h := by
  refine ⟨?_, ?_, ?_, ?_, rfl, rfl⟩
  · unfold gridSizeBands
    split <;> omega
  · cases wantsMipmaps with
    | false => simp [baseGridSize]
    | true => simpa [baseGridSize] using le_nextPow2 (max w h)
  · simpa [baseGridSize] using nextPow2_pow2 (max w h)
  · intro m hm
    simpa [baseGridSize] using nextPow2_min (max w h) m hm

/-- C1 witness: the minimality clause of `gridSize_choice` instantiated
at a 3×2 extent and the power of two 4. -/
theorem gridSize_choice_witness :
    max 3 2 ≤ 2 ^ 2 ∧ baseGridSize true 3 2 ≤ 2 ^ 2 :=
  ⟨by decide, (gridSize_choice true 3 2 5).2.2.2.1 2 (by decide)⟩

/-! ### Pin/unpin balance -/

theorem netPinOp_eq (s : Finset ℕ) (op : PinOp) (k : ℕ) :
    netPinOp s op k = (if k ∈ stepActive s op then 1 else 0) - (if k ∈ s then 1 else 0) := by
  cases op with
  | updateKeys d =>
    simp only [netPinOp, pinsOf, unpinsOf, stepActive]
    by_cases h1 : k ∈ d <;> by_cases h2 : k ∈ s <;> simp [Finset.mem_sdiff, h1, h2]
  | dispose =>
    simp only [netPinOp, pinsOf, unpinsOf, stepActive]

theorem netPinsFrom_eq (ops : List PinOp) : ∀ (s : Finset ℕ) (k : ℕ),
    netPinsFrom s ops k =
      (if k ∈ ops.foldl stepActive s then 1 else 0) - (if k ∈ s then 1 else 0) := by
  induction ops with
  | nil => intro s k; simp [netPinsFrom]
  | cons op ops ih =>
    intro s k
    simp only [netPinsFrom, List.foldl_cons, ih (stepActive s op) k, netPinOp_eq]
    ring

/-- C2: along any trace of frame reconciliations and disposals, the net
number of pins minus unpins a zoom-level state has issued for a key is 1
exactly while the key is in the current active set and 0 otherwise; once
the state is disposed the net count is 0 for every key (no leak); and
every operation only unpins keys that are currently pinned and only pins
keys that are not (no double pin or unpin). -/
theorem pin_unpin_exactly_once (ops : List PinOp) (k : ℕ) :
    netPins ops k = (if k ∈ runActive ops then 1 else 0) ∧
    netPins (ops ++ [PinOp.dispose]) k = 0 ∧
    ∀ (s : Finset ℕ) (op : PinOp), unpinsOf s op ⊆ s ∧ Disjoint (pinsOf s op) s := by
  refine ⟨?_, ?_, ?_⟩
  · rw [netPins, netPinsFrom_eq, runActive]; simp
  · rw [netPins, netPinsFrom_eq]
    have hfold : (ops ++ [PinOp.dispose]).foldl stepActive ∅ = ∅ := by
      rw [List.foldl_append]; rfl
    simp [hfold]
  · intro s op
    cases op with
    | updateKeys d => exact ⟨Finset.sdiff_subset, Finset.sdiff_disjoint⟩
    | dispose => exact ⟨subset_rfl, by simp [pinsOf]⟩

/-! ### Zoom-state lifecycle -/

/-- C8: calling `_ensureZoomState` with the grid and (nonzero) cell size
of the existing state returns that state unchanged with no render-target
reallocation; any grid or cell-size difference recreates the state with
a fresh render target while carrying forward the resident textures, the
in-flight loads map and the active key set. -/
theorem ensureZoomState_noop_and_carry (st : ZoomSt) (grid : Grid) (cellSizePx : Option ℤ)
    (tileSize freshRt : ℕ) :
    (st.grid = grid → st.cellSize ≠ 0 → st.cellSize = normCellSize cellSizePx tileSize →
      ensureZoomState (some st) grid cellSizePx tileSize freshRt = (st, false)) ∧
    (st.grid ≠ grid ∨ st.cellSize ≠ normCellSize cellSizePx tileSize →
      (ensureZoomState (some st) grid cellSizePx tileSize freshRt).2 = true ∧
      (ensureZoomState (some st) grid cellSizePx tileSize freshRt).1.textures = st.textures ∧
      (ensureZoomState (some st) grid cellSizePx tileSize freshRt).1.loads = st.loads ∧
      (ensureZoomState (some st) grid cellSizePx tileSize freshRt).1.activeKeys = st.activeKeys ∧
      (ensureZoomState (some st) grid cellSizePx tileSize freshRt).1.grid = grid ∧
      (ensureZoomState (some st) grid cellSizePx tileSize freshRt).1.cellSize
        = normCellSize cellSizePx tileSize ∧
      (ensureZoomState (some st) grid cellSizePx tileSize freshRt).1.rtId = freshRt) := by
  constructor
  · intro h1 h2 h3
    simp only [ensureZoomState]
    rw [if_pos ⟨h1, h2, h3⟩]
  · intro hch
    have hcond : ¬ (st.grid = grid ∧ st.cellSize ≠ 0 ∧
        st.cellSize = normCellSize cellSizePx tileSize) := by
      rcases hch with h | h
      · exact fun hc => h hc.1
      · exact fun hc => h hc.2.2
    simp only [ensureZoomState]
    rw [if_neg hcond]
    exact ⟨rfl, rfl, rfl, rfl, rfl, rfl, rfl⟩

/-- C8 witness: reapplying `sampleZoomSt`'s own grid and cell size is a
no-op, while a different grid recreates the state, reallocates and
carries the active key set forward. -/
theorem ensureZoomState_noop_and_carry_witness :
    ensureZoomState (some sampleZoomSt) sampleGrid (some 256) 256 9 = (sampleZoomSt, false) ∧
    (ensureZoomState (some sampleZoomSt) ⟨0, 0, 8⟩ (some 256) 256 9).2 = true ∧
    (ensureZoomState (some sampleZoomSt) ⟨0, 0, 8⟩ (some 256) 256 9).1.activeKeys
      = sampleZoomSt.activeKeys := by
  refine ⟨(ensureZoomState_noop_and_carry sampleZoomSt sampleGrid (some 256) 256 9).1
      rfl (by decide) (by decide), ?_, ?_⟩
  · exact ((ensureZoomState_noop_and_carry sampleZoomSt ⟨0, 0, 8⟩ (some 256) 256 9).2
      (Or.inl (by decide))).1
  · exact ((ensureZoomState_noop_and_carry sampleZoomSt ⟨0, 0, 8⟩ (some 256) 256 9).2
      (Or.inl (by decide))).2.2.2.1

/-! ### Stale fetch completions -/

theorem pendingStep_byZoom (a : Atlas) (z : ℤ) (actual : Option ℕ) (hasOverride : Bool)
    (defaultCell : ℕ) :
    (pendingStep a z actual hasOverride defaultCell).byZoom = a.byZoom := by
  cases actual with
  | none => rfl
  | some v =>
    simp only [pendingStep]
    split
    · split <;> rfl
    · rfl

theorem pendingStep_pending_ne (a : Atlas) (z : ℤ) (actual : Option ℕ) (hasOverride : Bool)
    (defaultCell : ℕ) (w : ℤ) (hw : w ≠ z) :
    (pendingStep a z actual hasOverride defaultCell).pending w = a.pending w := by
  cases actual with
  | none => rfl
  | some v =>
    simp only [pendingStep]
    split
    · split
      · simp [hw]
      · rfl
    · rfl

theorem tileThenBody_byZoom_of_stale (a : Atlas) (z : ℤ) (key : ℕ) (tileX tileY : ℤ)
    (tex : ℕ) (actual : Option ℕ) (hasOverride : Bool) (defaultCell : ℕ)
    (hstale : staleFor a z key) :
    (tileThenBody a z key tileX tileY tex actual hasOverride defaultCell).byZoom = a.byZoom := by
  unfold tileThenBody
  rw [pendingStep_byZoom]
  cases haz : a.byZoom z with
  | none => exact pendingStep_byZoom a z actual hasOverride defaultCell
  | some st =>
    have hkey : key ∉ st.activeKeys := by
      unfold staleFor at hstale
      rw [haz] at hstale
      exact hstale
    dsimp only
    rw [if_pos hkey]
    exact pendingStep_byZoom a z actual hasOverride defaultCell

theorem removeLoad_byZoom_ne (a : Atlas) (z : ℤ) (key : ℕ) (w : ℤ) (hw : w ≠ z) :
    (removeLoad a z key).byZoom w = a.byZoom w := by
  unfold removeLoad
  cases a.byZoom z with
  | none => rfl
  | some st => simp [setZoom, hw]

theorem removeLoad_byZoom_none (a : Atlas) (z : ℤ) (key : ℕ) (h : a.byZoom z = none) :
    (removeLoad a z key).byZoom z = none := by
  unfold removeLoad
  rw [h]
  exact h

theorem removeLoad_byZoom_some (a : Atlas) (z : ℤ) (key : ℕ) (st : ZoomSt)
    (h : a.byZoom z = some st) :
    (removeLoad a z key).byZoom z = some { st with loads := st.loads.erase key } := by
  unfold removeLoad
  rw [h]
  simp [setZoom]

/-- C3 counterexample.  The claim states that a stale completion leaves
all shared state unchanged.  With zoom 13 already disposed, a completion
delivering a 512 px texture still writes the pending cell-size hint
`pendingCellSizeByZoom.set(13, 512)` (lines 1840-1844 run BEFORE the
staleness re-check of line 1847), so shared state does change. -/
theorem staleCompletion_counterexample :
    staleFor atlasEmpty 13 5 ∧
    atlasEmpty.pending 13 = none ∧
    (tileSettled true atlasEmpty 13 5 100 50 99 (some 512) false 256).pending 13 = some 512 := by
  exact ⟨trivial, rfl, rfl⟩

/-- C3 (amended): a stale completion (zoom state gone, or key no longer
in the possibly superseded state's active set) leaves every zoom state's
textures, cell bindings, dirty flag, active keys, grid and cell size
unchanged — whether the fetch succeeded or failed and with no error
path — except that the key is removed from the target zoom's in-flight
map; the pending cell-size hint may still be recorded. -/
theorem staleCompletion_effect (success : Bool) (a : Atlas) (z : ℤ) (key : ℕ)
    (tileX tileY : ℤ) (tex : ℕ) (actual : Option ℕ) (hasOverride : Bool) (defaultCell : ℕ)
    (hstale : staleFor a z key) :
    (∀ w, w ≠ z →
      (tileSettled success a z key tileX tileY tex actual hasOverride defaultCell).byZoom w
        = a.byZoom w) ∧
    (a.byZoom z = none →
      (tileSettled success a z key tileX tileY tex actual hasOverride defaultCell).byZoom z
        = none) ∧
    (∀ st, a.byZoom z = some st →
      (tileSettled success a z key tileX tileY tex actual hasOverride defaultCell).byZoom z
        = some { st with loads := st.loads.erase key }) := by
  have hb : (if success then tileThenBody a z key tileX tileY tex actual hasOverride defaultCell
      else a).byZoom = a.byZoom := by
    cases success with
    | true =>
      simpa using
        tileThenBody_byZoom_of_stale a z key tileX tileY tex actual hasOverride defaultCell hstale
    | false => rfl
  unfold tileSettled
  refine ⟨?_, ?_, ?_⟩
  · intro w hw
    rw [removeLoad_byZoom_ne _ z key w hw]
    exact congrFun hb w
  · intro h
    exact removeLoad_byZoom_none _ z key ((congrFun hb z).trans h)
  · intro st h
    exact removeLoad_byZoom_some _ z key st ((congrFun hb z).trans h)

/-- C3 witness: a completion for disposed zoom 13 is ignored — zoom 13
stays absent and zoom 12 is untouched. -/
theorem staleCompletion_effect_witness :
    staleFor atlasEmpty 13 9 ∧
    (tileSettled true atlasEmpty 13 9 10 20 77 none false 256).byZoom 13 = none ∧
    (tileSettled true atlasEmpty 13 9 10 20 77 none false 256).byZoom 12
      = atlasEmpty.byZoom 12 := by
  have h := staleCompletion_effect true atlasEmpty 13 9 10 20 77 none false 256 trivial
  exact ⟨trivial, h.2.1 rfl, h.1 12 (by decide)⟩

/-! ### Fetch issuance -/

theorem issueLoopGo_spec (textures : ℕ → Option ℕ) (matOk : ℤ → Bool) (quota : ℕ)
    (cells : List CellInfo) : ∀ (loads : Finset ℕ) (issued : ℕ) (acc : List ℕ),
    acc.Nodup → (∀ k ∈ acc, k ∈ loads) →
    (issued ≤ quota →
      (issueLoopGo textures matOk quota cells loads issued acc).issuedCount ≤ quota) ∧
    (issued = acc.length →
      (issueLoopGo textures matOk quota cells loads issued acc).issuedCount
        = (issueLoopGo textures matOk quota cells loads issued acc).issuedKeys.length) ∧
    (issueLoopGo textures matOk quota cells loads issued acc).issuedKeys.Nodup ∧
    (∀ k ∈ (issueLoopGo textures matOk quota cells loads issued acc).issuedKeys,
      k ∈ acc ∨ (textures k = none ∧ k ∉ loads)) ∧
    loads ⊆ (issueLoopGo textures matOk quota cells loads issued acc).loads ∧
    (∀ k ∈ (issueLoopGo textures matOk quota cells loads issued acc).issuedKeys,
      k ∈ (issueLoopGo textures matOk quota cells loads issued acc).loads) := by
  induction cells with
  | nil =>
    intro loads issued acc hnd hsub
    refine ⟨fun h => h, fun h => ?_, by simpa [issueLoopGo] using hnd, ?_, subset_rfl, ?_⟩
    · simp [issueLoopGo, h]
    · intro k hk
      simp only [issueLoopGo, List.mem_reverse] at hk
      exact Or.inl hk
    · intro k hk
      simp only [issueLoopGo, List.mem_reverse] at hk
      exact hsub k hk
  | cons c cs ih =>
    intro loads issued acc hnd hsub
    rw [issueLoopGo]
    by_cases hmat : matOk c.idx = false
    · rw [if_pos hmat]
      exact ih loads issued acc hnd hsub
    · rw [if_neg hmat]
      cases htex : textures c.key with
      | some t => exact ih loads issued acc hnd hsub
      | none =>
        by_cases hmem : c.key ∈ loads
        · rw [if_pos hmem]
          exact ih loads issued acc hnd hsub
        · rw [if_neg hmem]
          by_cases hq : quota ≤ issued
          · rw [if_pos hq]
            exact ih loads issued acc hnd hsub
          · rw [if_neg hq]
            have hndc : (c.key :: acc).Nodup :=
              List.nodup_cons.mpr ⟨fun hk => hmem (hsub c.key hk), hnd⟩
            have hsubc : ∀ k ∈ c.key :: acc, k ∈ insert c.key loads := by
              intro k hk
              rcases List.mem_cons.mp hk with rfl | hk
              · exact Finset.mem_insert_self _ loads
              · exact Finset.mem_insert_of_mem (hsub k hk)
            obtain ⟨ih1, ih2, ih3, ih4, ih5, ih6⟩ :=
              ih (insert c.key loads) (issued + 1) (c.key :: acc) hndc hsubc
            refine ⟨fun h => ih1 (by omega), fun h => ih2 (by simp [h]), ih3, ?_,
              fun x hx => ih5 (Finset.mem_insert_of_mem hx), ih6⟩
            intro k hk
            rcases ih4 k hk with hka | ⟨hkt, hkl⟩
            · rcases List.mem_cons.mp hka with rfl | hka
              · exact Or.inr ⟨htex, hmem⟩
              · exact Or.inl hka
            · exact Or.inr ⟨hkt, fun hx => hkl (Finset.mem_insert_of_mem hx)⟩

theorem removeLoad_key_not_mem (a : Atlas) (z : ℤ) (key : ℕ) (st : ZoomSt)
    (h : (removeLoad a z key).byZoom z = some st) : key ∉ st.loads := by
  cases haz : a.byZoom z with
  | none =>
    rw [removeLoad_byZoom_none a z key haz] at h
    cases h
  | some st0 =>
    rw [removeLoad_byZoom_some a z key st0 haz] at h
    have h2 := Option.some.inj h
    rw [← h2]
    exact Finset.not_mem_erase key st0.loads

theorem frameIssuedTotal_le (textures : ℕ → Option ℕ) (matOk : ℤ → Bool) (quota : ℕ) :
    ∀ zoomCells : List (List CellInfo × Finset ℕ),
      frameIssuedTotal textures matOk quota zoomCells ≤ quota * zoomCells.length := by
  intro zoomCells
  induction zoomCells with
  | nil => simp [frameIssuedTotal]
  | cons zc zcs ihz =>
    have hz : (issueFetches textures matOk quota zc.1 zc.2).issuedCount ≤ quota :=
      (issueLoopGo_spec textures matOk quota zc.1 zc.2 0 [] (by simp) (by simp)).1 (Nat.zero_le _)
    have hunf : frameIssuedTotal textures matOk quota (zc :: zcs)
        = (issueFetches textures matOk quota zc.1 zc.2).issuedCount
          + frameIssuedTotal textures matOk quota zcs := by
      simp [frameIssuedTotal]
    rw [hunf, List.length_cons, Nat.mul_succ]
    omega

/-- C4 counterexample.  The claim bounds the TOTAL number of new fetches
per frame by the quota.  The `issued` counter is reset inside the
per-zoom loop (line 1815), so with quota 1 and two active zooms, each
with one fresh candidate, the frame issues 2 fetches. -/
theorem newLoads_quota_counterexample :
    frameIssuedTotal (fun _ => none) (fun _ => true) 1
        [([⟨0, 1, 0, 0⟩], ∅), ([⟨0, 2, 0, 0⟩], ∅)] = 2 ∧
    ¬ frameIssuedTotal (fun _ => none) (fun _ => true) 1
        [([⟨0, 1, 0, 0⟩], ∅), ([⟨0, 2, 0, 0⟩], ∅)] ≤ 1 := by
  have h : frameIssuedTotal (fun _ => none) (fun _ => true) 1
      [([⟨0, 1, 0, 0⟩], ∅), ([⟨0, 2, 0, 0⟩], ∅)] = 2 := rfl
  exact ⟨h, by rw [h]; decide⟩

/-- C4 (amended): the new-fetch quota `mapDrapeAtlasMaxNewLoadsPerTick`
bounds issuance PER ZOOM LEVEL per update, not across the frame: each
zoom issues at most `quota` fetches, tiles already resident or already
in flight are not counted, and the frame total is bounded only by the
quota times the number of active zooms. -/
theorem newLoads_quota_per_zoom (textures : ℕ → Option ℕ) (matOk : ℤ → Bool) (quota : ℕ)
    (cells : List CellInfo) (loads : Finset ℕ)
    (zoomCells : List (List CellInfo × Finset ℕ)) :
    (issueFetches textures matOk quota cells loads).issuedCount ≤ quota ∧
    (issueFetches textures matOk quota cells loads).issuedCount
      = (issueFetches textures matOk quota cells loads).issuedKeys.length ∧
    (∀ k ∈ (issueFetches textures matOk quota cells loads).issuedKeys,
      textures k = none ∧ k ∉ loads) ∧
    frameIssuedTotal textures matOk quota zoomCells ≤ quota * zoomCells.length := by
  have h := issueLoopGo_spec textures matOk quota cells loads 0 [] (by simp) (by simp)
  refine ⟨h.1 (Nat.zero_le _), h.2.1 rfl, ?_, ?_⟩
  · intro k hk
    rcases h.2.2.2.1 k hk with hacc | hfresh
    · simp at hacc
    · exact hfresh
  · exact frameIssuedTotal_le textures matOk quota zoomCells

/-- C4 witness: with quota 2 and three fresh candidates, only two
fetches are issued and the issued key 1 was neither resident nor in
flight. -/
theorem newLoads_quota_per_zoom_witness :
    (issueFetches (fun _ => none) (fun _ => true) 2
        [⟨0, 1, 0, 0⟩, ⟨1, 2, 0, 0⟩, ⟨2, 3, 0, 0⟩] ∅).issuedCount ≤ 2 ∧
    ((fun _ => (none : Option ℕ)) 1 = none ∧ 1 ∉ (∅ : Finset ℕ)) := by
  have h := newLoads_quota_per_zoom (fun _ => none) (fun _ => true) 2
    [⟨0, 1, 0, 0⟩, ⟨1, 2, 0, 0⟩, ⟨2, 3, 0, 0⟩] ∅ []
  exact ⟨h.1, h.2.2.1 1 (by decide)⟩

/-- C10: within one zoom state and frame, a fetch is only issued for a
key that is absent from the loads map and not yet resident (so the
issued keys are pairwise distinct), every issued key is recorded in the
resulting loads map, and a settling fetch — success or failure — removes
its key from the current loads map. -/
theorem single_inflight_per_key (textures : ℕ → Option ℕ) (matOk : ℤ → Bool) (quota : ℕ)
    (cells : List CellInfo) (loads : Finset ℕ) :
    (issueFetches textures matOk quota cells loads).issuedKeys.Nodup ∧
    (∀ k ∈ (issueFetches textures matOk quota cells loads).issuedKeys,
      (textures k = none ∧ k ∉ loads) ∧
        k ∈ (issueFetches textures matOk quota cells loads).loads) ∧
    (∀ (success : Bool) (a : Atlas) (z : ℤ) (key : ℕ) (tileX tileY : ℤ) (tex : ℕ)
        (actual : Option ℕ) (hasOverride : Bool) (defaultCell : ℕ) (st : ZoomSt),
      (tileSettled success a z key tileX tileY tex actual hasOverride defaultCell).byZoom z
        = some st → key ∉ st.loads) := by
  have h := issueLoopGo_spec textures matOk quota cells loads 0 [] (by simp) (by simp)
  refine ⟨h.2.2.1, ?_, ?_⟩
  · intro k hk
    refine ⟨?_, h.2.2.2.2.2 k hk⟩
    rcases h.2.2.2.1 k hk with hacc | hfresh
    · simp at hacc
    · exact hfresh
  · intro success a z key tileX tileY tex actual hasOverride defaultCell st hst
    exact removeLoad_key_not_mem _ z key st hst

/-- C10 witness: in a concrete run the issued keys are distinct and key
2 ends up recorded in the loads map; a settled fetch for key 7 leaves it
outside zoom 13's loads map. -/
theorem single_inflight_per_key_witness :
    (issueFetches (fun _ => none) (fun _ => true) 8
        [⟨0, 2, 0, 0⟩, ⟨1, 4, 1, 0⟩] ∅).issuedKeys.Nodup ∧
    2 ∈ (issueFetches (fun _ => none) (fun _ => true) 8
        [⟨0, 2, 0, 0⟩, ⟨1, 4, 1, 0⟩] ∅).loads := by
  have h := single_inflight_per_key (fun _ => none) (fun _ => true) 8
    [⟨0, 2, 0, 0⟩, ⟨1, 4, 1, 0⟩] ∅
  exact ⟨h.1, (h.2.1 2 (by decide)).2⟩

/-! ### Trapezoid refinement termination and work cap -/

theorem refineLoop_work_bound (visible inRange : TileEnt → Bool) (desiredZ : TileEnt → ℤ)
    (minZoom topZoom : ℤ) (maxLeaf : ℕ) :
    ∀ (fuel : ℕ) (stack acc : List TileEnt) (leaves work : ℕ),
      (refineLoop visible inRange desiredZ minZoom topZoom maxLeaf fuel stack acc leaves
        work).work ≤ work + fuel ∧
      ((refineLoop visible inRange desiredZ minZoom topZoom maxLeaf fuel stack acc leaves
          work).remaining ≠ [] →
        (refineLoop visible inRange desiredZ minZoom topZoom maxLeaf fuel stack acc leaves
          work).work = work + fuel) := by
  intro fuel
  induction fuel with
  | zero =>
    intro stack acc leaves work
    cases stack with
    | nil => exact ⟨by simp [refineLoop], by simp [refineLoop]⟩
    | cons t rest => exact ⟨by simp [refineLoop], by simp [refineLoop]⟩
  | succ f ihf =>
    intro stack acc leaves work
    cases stack with
    | nil => exact ⟨by simp [refineLoop], by simp [refineLoop]⟩
    | cons t rest =>
      rw [refineLoop]
      by_cases h1 : visible t = false ∧ minZoom < t.z
      · rw [if_pos h1]
        have h := ihf rest acc leaves (work + 1)
        exact ⟨by omega, fun hne => by have h2 := h.2 hne; omega⟩
      · rw [if_neg h1]
        by_cases h2 : inRange t = false
        · rw [if_pos h2]
          have h := ihf rest acc leaves (work + 1)
          exact ⟨by omega, fun hne => by have h3 := h.2 hne; omega⟩
        · rw [if_neg h2]
          by_cases h3 : t.z < topZoom ∧ t.z < (if visible t then desiredZ t else t.z) ∧
              leaves < maxLeaf
          · rw [if_pos h3]
            have h := ihf (childEnts t ++ rest) acc leaves (work + 1)
            exact ⟨by omega, fun hne => by have h4 := h.2 hne; omega⟩
          · rw [if_neg h3]
            have h := ihf rest (acc ++ [t]) (leaves + 1) (work + 1)
            exact ⟨by omega, fun hne => by have h4 := h.2 hne; omega⟩

/-- C7: the refinement loop always terminates after consuming at most
`maxWork` work units; the loop stops short (a nonempty stack remains)
only when the whole budget was consumed; and every entry left on the
stack at the cap is placed into the selected tile set unchanged — at its
current zoom, without further refinement — so no candidate is dropped. -/
theorem refine_loop_capped (visible inRange : TileEnt → Bool) (desiredZ : TileEnt → ℤ)
    (minZoom topZoom : ℤ) (maxLeaf maxWork : ℕ) (stack : List TileEnt) :
    (refineLoop visible inRange desiredZ minZoom topZoom maxLeaf maxWork stack [] 0 0).work
      ≤ maxWork ∧
    ((refineLoop visible inRange desiredZ minZoom topZoom maxLeaf maxWork stack [] 0
        0).remaining ≠ [] →
      (refineLoop visible inRange desiredZ minZoom topZoom maxLeaf maxWork stack [] 0 0).work
        = maxWork) ∧
    (∀ t ∈ (refineLoop visible inRange desiredZ minZoom topZoom maxLeaf maxWork stack [] 0
        0).remaining,
      t ∈ (selectTrapezoidTiles visible inRange desiredZ minZoom topZoom maxLeaf maxWork
        stack).1) := by
  have h := refineLoop_work_bound visible inRange desiredZ minZoom topZoom maxLeaf
    maxWork stack [] 0 0
  refine ⟨by have h1 := h.1; omega, fun hne => by have h2 := h.2 hne; omega, ?_⟩
  intro t ht
  unfold selectTrapezoidTiles
  simp only [List.mem_append, List.mem_reverse]
  exact Or.inr ht

/-- C7 witness: a one-unit work budget over a single root entry refines
once, exhausts the budget with the four children still on the stack, and
each of them — here child (1,1) at zoom 1 — is kept in the output. -/
theorem refine_loop_capped_witness :
    (refineLoop (fun _ => true) (fun _ => true) (fun t => t.z + 5) 0 10 100 1
        [⟨0, 0, 0⟩] [] 0 0).remaining ≠ [] ∧
    (refineLoop (fun _ => true) (fun _ => true) (fun t => t.z + 5) 0 10 100 1
        [⟨0, 0, 0⟩] [] 0 0).work = 1 ∧
    (⟨1, 1, 1⟩ : TileEnt) ∈ (selectTrapezoidTiles (fun _ => true) (fun _ => true)
        (fun t => t.z + 5) 0 10 100 1 [⟨0, 0, 0⟩]).1 := by
  have h := refine_loop_capped (fun _ => true) (fun _ => true) (fun t => t.z + 5)
    0 10 100 1 [⟨0, 0, 0⟩]
  have hne : (refineLoop (fun _ => true) (fun _ => true) (fun t => t.z + 5) 0 10 100 1
      [⟨0, 0, 0⟩] [] 0 0).remaining ≠ [] := by decide
  exact ⟨hne, h.2.1 hne, h.2.2 ⟨1, 1, 1⟩ (by decide)⟩

/-! ### Distance-to-zoom monotonicity -/

theorem metersPerPixelAt_pos (tanHalfFov viewportH errScale : ℝ)
    (ht : 0 < tanHalfFov) (hv : 0 < viewportH) (hs : 0 < errScale) (d : ℝ) :
    0 < metersPerPixelAt tanHalfFov viewportH errScale d := by
  unfold metersPerPixelAt
  have h1 : (0 : ℝ) < max 1 d := lt_of_lt_of_le one_pos (le_max_left 1 d)
  exact mul_pos (div_pos (mul_pos (mul_pos two_pos h1) ht) hv) hs

theorem worldCircumference_pos : 0 < worldCircumference := by
  unfold worldCircumference
  have hpi := Real.pi_pos
  nlinarith

/-- C5: for a fixed perspective field of view, viewport height and error
scale, the desired zoom computed from viewing distance is monotonically
non-increasing in the distance, and its value is clamped into the
configured `[minZoom, topZoom]` range. -/
theorem desiredZoom_antitone_clamped (tanHalfFov viewportH errScale : ℝ)
    (minZoom topZoom : ℤ) (d1 d2 : ℝ)
    (ht : 0 < tanHalfFov) (hv : 0 < viewportH) (hs : 0 < errScale)
    (hz : minZoom ≤ topZoom) (hd : d1 ≤ d2) :
    desiredZoomForDistance tanHalfFov viewportH errScale minZoom topZoom d2
      ≤ desiredZoomForDistance tanHalfFov viewportH errScale minZoom topZoom d1 ∧
    minZoom ≤ desiredZoomForDistance tanHalfFov viewportH errScale minZoom topZoom d1 ∧
    desiredZoomForDistance tanHalfFov viewportH errScale minZoom topZoom d1 ≤ topZoom := by
  have hp1 := metersPerPixelAt_pos tanHalfFov viewportH errScale ht hv hs d1
  have hp2 := metersPerPixelAt_pos tanHalfFov viewportH errScale ht hv hs d2
  have hmono : metersPerPixelAt tanHalfFov viewportH errScale d1
      ≤ metersPerPixelAt tanHalfFov viewportH errScale d2 := by
    unfold metersPerPixelAt
    have h1 : max 1 d1 ≤ max 1 d2 := max_le_max le_rfl hd
    have h2 : 2 * max 1 d1 * tanHalfFov ≤ 2 * max 1 d2 * tanHalfFov :=
      mul_le_mul_of_nonneg_right
        (mul_le_mul_of_nonneg_left h1 (by norm_num)) ht.le
    exact mul_le_mul_of_nonneg_right ((div_le_div_iff_of_pos_right hv).mpr h2) hs.le
  have harg : worldCircumference / (256 * metersPerPixelAt tanHalfFov viewportH errScale d2)
      ≤ worldCircumference / (256 * metersPerPixelAt tanHalfFov viewportH errScale d1) := by
    refine div_le_div_of_nonneg_left worldCircumference_pos.le (by linarith) (by linarith)
  have hargpos : 0 < worldCircumference
      / (256 * metersPerPixelAt tanHalfFov viewportH errScale d2) :=
    div_pos worldCircumference_pos (by linarith)
  have hlog := Real.logb_le_logb_of_le (by norm_num : (1 : ℝ) < 2) hargpos harg
  have hceil := Int.ceil_mono hlog
  unfold desiredZoomForDistance
  exact ⟨max_le_max le_rfl (min_le_min le_rfl hceil), le_max_left _ _,
    max_le hz (min_le_left _ _)⟩

/-- C5 witness: the theorem instantiated at FOV 90 degrees
(`tan(fov/2) = 1`), a 720 px viewport, unit error scale, zoom range
`[5, 18]` and distances 100 and 200 meters. -/
theorem desiredZoom_antitone_clamped_witness :
    desiredZoomForDistance 1 720 1 5 18 200 ≤ desiredZoomForDistance 1 720 1 5 18 100 ∧
    5 ≤ desiredZoomForDistance 1 720 1 5 18 100 ∧
    desiredZoomForDistance 1 720 1 5 18 100 ≤ 18 :=
  desiredZoom_antitone_clamped 1 720 1 5 18 100 200
    (by norm_num) (by norm_num) (by norm_num) (by norm_num) (by norm_num)

/-! ### Debounce gate -/

theorem viewPlanarMeters_sameYZ (y z qx qy qz qw x1 x2 : ℝ) :
    viewPlanarMeters 1 ⟨x1, y, z, qx, qy, qz, qw⟩ ⟨x2, y, z, qx, qy, qz, qw⟩ = |x2 - x1| := by
  show Real.sqrt ((1 * (x2 - x1)) ^ 2 + (1 * (z - z)) ^ 2) = |x2 - x1|
  rw [show (1 * (x2 - x1)) ^ 2 + (1 * (z - z)) ^ 2 = (x2 - x1) ^ 2 by ring]
  exact Real.sqrt_sq_eq_abs _

theorem viewHeightMeters_same (mpu : ℝ) (lv cv : CamView) (hy : cv.y = lv.y) :
    viewHeightMeters mpu lv cv = 0 := by
  unfold viewHeightMeters
  rw [hy]
  simp

theorem viewAngleDeg_same_unit (lv cv : CamView)
    (hq : cv.qx = lv.qx ∧ cv.qy = lv.qy ∧ cv.qz = lv.qz ∧ cv.qw = lv.qw)
    (hunit : lv.qx * lv.qx + lv.qy * lv.qy + lv.qz * lv.qz + lv.qw * lv.qw = 1) :
    viewAngleDeg lv cv = 0 := by
  unfold viewAngleDeg
  rw [hq.1, hq.2.1, hq.2.2.1, hq.2.2.2, hunit]
  norm_num [Real.arccos_one]

/-- C6 counterexample.  The claim's example states that a 10 m
translation must not lead to an LOD recomputation before the debounce
interval elapses while a 20 m translation must trigger one.  The code
does the opposite: after a 10 m translation (below the 15 m threshold)
no movement timestamp is recorded and — with no earlier movement — the
gate does NOT suppress the frame's recomputation, while a 20 m
translation records `lastMoveAt = now` and the gate suppresses the
recomputation of that very frame (and of every frame until the camera
has been still for the debounce interval). -/
theorem debounce_example_counterexample :
    debounceLastMoveAt 1 15 20 1.5 (some ⟨0, 0, 0, 0, 0, 0, 1⟩) ⟨10, 0, 0, 0, 0, 0, 1⟩
        none 1000 = none ∧
    ¬ debounceSuppresses (debounceLastMoveAt 1 15 20 1.5 (some ⟨0, 0, 0, 0, 0, 0, 1⟩)
        ⟨10, 0, 0, 0, 0, 0, 1⟩ none 1000) 1000 150 ∧
    debounceLastMoveAt 1 15 20 1.5 (some ⟨0, 0, 0, 0, 0, 0, 1⟩) ⟨20, 0, 0, 0, 0, 0, 1⟩
        none 1000 = some 1000 ∧
    debounceSuppresses (some 1000) 1000 150 := by
  have e10 : viewPlanarMeters 1 ⟨0, 0, 0, 0, 0, 0, 1⟩ ⟨10, 0, 0, 0, 0, 0, 1⟩ = 10 := by
    rw [viewPlanarMeters_sameYZ]
    norm_num
  have e20 : viewPlanarMeters 1 ⟨0, 0, 0, 0, 0, 0, 1⟩ ⟨20, 0, 0, 0, 0, 0, 1⟩ = 20 := by
    rw [viewPlanarMeters_sameYZ]
    norm_num
  have eh10 : viewHeightMeters 1 ⟨0, 0, 0, 0, 0, 0, 1⟩ ⟨10, 0, 0, 0, 0, 0, 1⟩ = 0 :=
    viewHeightMeters_same 1 _ _ rfl
  have ea10 : viewAngleDeg (⟨0, 0, 0, 0, 0, 0, 1⟩ : CamView) ⟨10, 0, 0, 0, 0, 0, 1⟩ = 0 :=
    viewAngleDeg_same_unit _ _ ⟨rfl, rfl, rfl, rfl⟩ (by norm_num)
  have hnm : ¬ viewMoved 1 15 20 1.5 ⟨0, 0, 0, 0, 0, 0, 1⟩ ⟨10, 0, 0, 0, 0, 0, 1⟩ := by
    unfold viewMoved
    rw [e10, eh10]
    -- the height term uses the same instantiation as eh10
    push_neg
    refine ⟨by norm_num, by norm_num, ?_⟩
    rw [ea10]
    norm_num
  have hm : viewMoved 1 15 20 1.5 ⟨0, 0, 0, 0, 0, 0, 1⟩ ⟨20, 0, 0, 0, 0, 0, 1⟩ := by
    unfold viewMoved
    rw [e20]
    exact Or.inl (by norm_num)
  refine ⟨?_, ?_, ?_, ?_⟩
  · unfold debounceLastMoveAt
    dsimp only
    rw [if_neg hnm]
  · unfold debounceLastMoveAt
    dsimp only
    rw [if_neg hnm]
    unfold debounceSuppresses
    exact not_false
  · unfold debounceLastMoveAt
    dsimp only
    rw [if_pos hm]
  · unfold debounceSuppresses
    norm_num

/-- C6 (amended): with a shared unit-norm orientation and unchanged
height, a translation at or below the move threshold leaves the movement
timestamp unchanged — so with no previously recorded movement the gate
does not block the frame; a translation strictly above the threshold
(such as 20 m against the 15 m threshold) records `now` as the movement
timestamp, and the gate then suppresses LOD recomputation for that frame
and until the debounce interval has elapsed. -/
theorem debounce_gate_behavior (mpu moveM heightM angleDeg debounceMs now : ℝ)
    (lv cv : CamView) (lastMoveAt : Option ℝ)
    (hq : cv.qx = lv.qx ∧ cv.qy = lv.qy ∧ cv.qz = lv.qz ∧ cv.qw = lv.qw)
    (hunit : lv.qx * lv.qx + lv.qy * lv.qy + lv.qz * lv.qz + lv.qw * lv.qw = 1)
    (hy : cv.y = lv.y) (hh : 0 ≤ heightM) (ha : 0 ≤ angleDeg) :
    (viewPlanarMeters mpu lv cv ≤ moveM →
      debounceLastMoveAt mpu moveM heightM angleDeg (some lv) cv lastMoveAt now
        = lastMoveAt) ∧
    (moveM < viewPlanarMeters mpu lv cv →
      debounceLastMoveAt mpu moveM heightM angleDeg (some lv) cv lastMoveAt now = some now ∧
      (0 < debounceMs → debounceSuppresses (some now) now debounceMs)) ∧
    (lastMoveAt = none → ¬ debounceSuppresses lastMoveAt now debounceMs) := by
  have hhm : viewHeightMeters mpu lv cv = 0 := viewHeightMeters_same mpu lv cv hy
  have ham : viewAngleDeg lv cv = 0 := viewAngleDeg_same_unit lv cv hq hunit
  refine ⟨?_, ?_, ?_⟩
  · intro hle
    have hnm : ¬ viewMoved mpu moveM heightM angleDeg lv cv := by
      unfold viewMoved
      rw [hhm, ham]
      push_neg
      exact ⟨hle, hh, ha⟩
    unfold debounceLastMoveAt
    dsimp only
    rw [if_neg hnm]
  · intro hgt
    have hm : viewMoved mpu moveM heightM angleDeg lv cv := Or.inl hgt
    refine ⟨?_, ?_⟩
    · unfold debounceLastMoveAt
      dsimp only
      rw [if_pos hm]
    · intro hdb
      unfold debounceSuppresses
      linarith
  · intro hnone
    rw [hnone]
    unfold debounceSuppresses
    exact not_false

/-- C6 witness: the amended theorem applied to a 30 m x-translation with
identity orientation: the timestamp is recorded and the frame's
recomputation suppressed. -/
theorem debounce_gate_behavior_witness :
    debounceLastMoveAt 1 15 20 1.5 (some ⟨0, 0, 0, 0, 0, 0, 1⟩) ⟨30, 0, 0, 0, 0, 0, 1⟩
        none 2000 = some 2000 ∧
    (0 < (150 : ℝ) → debounceSuppresses (some 2000) 2000 150) := by
  have e30 : viewPlanarMeters 1 ⟨0, 0, 0, 0, 0, 0, 1⟩ ⟨30, 0, 0, 0, 0, 0, 1⟩ = 30 := by
    rw [viewPlanarMeters_sameYZ]
    norm_num
  exact (debounce_gate_behavior 1 15 20 1.5 150 2000 ⟨0, 0, 0, 0, 0, 0, 1⟩
    ⟨30, 0, 0, 0, 0, 0, 1⟩ none ⟨rfl, rfl, rfl, rfl⟩ (by norm_num) rfl (by norm_num)
    (by norm_num)).2.1 (by rw [e30]; norm_num)

/-! ### Per-frame input validation -/

/-- C9 counterexample.  The claim lists a missing ground intersection as
an input fault that makes the frame no-op.  The code consults no ground
hit in any of its early returns: with the shader enabled and a finite
camera mercator position, the guarded prefix proceeds to the LOD phase
even with ZERO ground intersections, and the trapezoid path then adopts
a conservative camera-centred square as the viewport footprint (lines
619-632) instead of returning. -/
theorem invalid_inputs_counterexample :
    (updateGuard [(13, {5})] ⟨true, false, false, false⟩ (some (some 0, some 0))).outcome
      = FrameOutcome.proceeds ∧
    trapezoidViewportMercBounds true [] 0 0 5000
      = some ⟨-5000, -5000, 5000, 5000⟩ := by
  refine ⟨rfl, ?_⟩
  norm_num [trapezoidViewportMercBounds]

/-- C9 (amended): when the camera position cannot be projected to finite
mercator coordinates — including a missing projection reference, which
yields no mercator position at all — and no earlier gate fired, the
frame's update returns before the LOD phase with every zoom-level state
untouched, no tile pinned or unpinned and no fetch issued.  A missing
ground intersection is NOT such a fault: it does not cause this return. -/
theorem invalid_inputs_noop (byZoom : List (ℤ × Finset ℕ)) (g : GuardInput)
    (camMerc : Option (Option ℚ × Option ℚ))
    (hg : g.enabled = true) (hh : g.heightGateExceeded = false)
    (hd : g.debounceSuppressed = false) (ht : g.throttled = false)
    (hcam : camMercFinite camMerc = false) :
    updateGuard byZoom g camMerc
      = ⟨byZoom, ∅, 0, FrameOutcome.invalidCamera⟩ := by
  simp [updateGuard, hg, hh, hd, ht, hcam]

/-- C9 witness: a missing projection reference and a non-finite mercator
x coordinate both make the guarded prefix return with the table, pins
and fetch count untouched. -/
theorem invalid_inputs_noop_witness :
    updateGuard [(13, {5})] ⟨true, false, false, false⟩ none
      = ⟨[(13, {5})], ∅, 0, FrameOutcome.invalidCamera⟩ ∧
    updateGuard [(13, {5})] ⟨true, false, false, false⟩ (some (none, some 0))
      = ⟨[(13, {5})], ∅, 0, FrameOutcome.invalidCamera⟩ :=
  ⟨invalid_inputs_noop _ _ _ rfl rfl rfl rfl rfl,
   invalid_inputs_noop _ _ _ rfl rfl rfl rfl rfl⟩

end MapAtlas
